import Mathlib

/-!
Verification development for the meo-meo-logger delivery pipeline.

The definitions below are a shallow embedding of the TypeScript sources:
  src/lib/shared/TransportSlot.ts   (TransportSlot: filtering, batching,
                                     rate limiting, retry, flush chaining)
  src/lib/shared/constants.ts       (LEVEL_ORDER, VALID_LEVELS, VALID_MODES)
  src/lib/core/CoreLogger.ts        (CoreLogger.write / configure / dispatch)
  src/utils/validate.ts             (validateConfig, isValidLevel, isValidMode)

Modelling conventions:
  - JavaScript log levels are string literals, compared through
    LEVEL_ORDER.indexOf; we model levels as strings and indexOf as an
    Int-valued lookup that returns -1 when absent, exactly like
    Array.prototype.indexOf.
  - A user supplied filter callback is an arbitrary JavaScript function and
    may throw; we model it as a function into Except String Bool, where
    Except.error is a thrown exception.
  - Asynchrony is modelled as a labelled transition system over SlotState:
    the synchronous part of flushNow (chaining, queue swap, handing the
    batch to transport.write) is one step, settlement of the in-flight
    write promise (doWrite plus its finally handler plus the chained
    then-continuations) is the writeComplete step.  The batch handed to
    the transport is recorded in the batches field and a start or done
    event is recorded in the events field when a write begins or settles.
  - Numbers that the source only ever uses as non-negative counters or
    millisecond timestamps are modelled as Nat.
-/

namespace MeoLogger

/-- LEVEL_ORDER from src/lib/shared/constants.ts (and the local copy in
TransportSlot.ts): the ordered list of log level names. -/
def LEVEL_ORDER : List String := ["debug", "info", "warn", "error"]

/-- Array.prototype.indexOf over LEVEL_ORDER: index of the level name, or
-1 when the string is not a level name. -/
def levelIndex (l : String) : Int :=
  match LEVEL_ORDER.findIdx? (fun x => x == l) with
  | some i => (i : Int)
  | none => -1

/-- LogEntry from src/lib/shared/types.ts: the immutable record carried
through the pipeline.  Metadata is modelled as an association list. -/
structure LogEntry where
  level : String
  msg : String
  time : String := ""
  service : String := ""
  scope : Option String := none
  meta : Option (List (String × String)) := none
deriving DecidableEq, Repr

/-- TransportConfig as resolved in the TransportSlot constructor
(TransportSlot.ts lines 39-49): absent numeric options default to the 0
sentinel, batchSize defaults to 1.  The filter callback may throw, which
is modelled by the Except codomain. -/
structure TransportConfig where
  minLevel : Option String := none
  filter : Option (LogEntry → Except String Bool) := none
  batchSize : Nat := 1
  flushInterval : Nat := 0
  maxQueueSize : Nat := 0
  rateLimit : Nat := 0
  maxRetries : Nat := 0
  retryDelay : Nat := 0

/-- Observable write lifecycle events of one slot: a write call on the
transport starts (with its batch), or the in-flight write settles. -/
inductive WriteEvent where
  | wstart (batch : List LogEntry)
  | wdone
deriving DecidableEq, Repr

/-- The mutable state of one TransportSlot (TransportSlot.ts lines 29-37),
extended with two observation histories: batches handed to the transport
and the write start and settle events.  flushPromise holds the batch of
the in-flight write; chained counts the flushNow continuations currently
chained onto the in-flight write with .then. -/
structure SlotState where
  queue : List LogEntry := []
  timer : Bool := false
  rateLimitCount : Nat := 0
  rateLimitWindowStart : Nat := 0
  flushPromise : Option (List LogEntry) := none
  chained : Nat := 0
  batches : List (List LogEntry) := []
  events : List WriteEvent := []
deriving DecidableEq, Repr

/-- The state of a freshly constructed TransportSlot. -/
def initSlot : SlotState := {}

/-- TransportSlot.isRateLimited (lines 143-153), as a pure function of the
rateLimit option and the two rate-window fields.  Returns the limited flag
together with the updated rateLimitCount and rateLimitWindowStart. -/
def isRateLimited (rateLimit count windowStart now : Nat) : Bool × Nat × Nat :=
  if rateLimit ≤ 0 then (false, count, windowStart)
  else
    let (count, windowStart) :=
      if 1000 ≤ now - windowStart then (0, now) else (count, windowStart)
    if rateLimit ≤ count then (true, count, windowStart)
    else (false, count + 1, windowStart)

/-- Step 4 of TransportSlot.enqueue (lines 64-68): push the entry, then
evict the oldest element when maxQueueSize is positive and exceeded. -/
def pushEvict (maxQueueSize : Nat) (queue : List LogEntry) (entry : LogEntry) :
    List LogEntry :=
  if 0 < maxQueueSize ∧ maxQueueSize < (queue ++ [entry]).length then
    (queue ++ [entry]).tail
  else queue ++ [entry]

/-- The synchronous part of TransportSlot.flushNow (lines 101-121).  When a
write is in flight the call chains behind it (one more then-continuation);
when the queue is empty it is a no-op; otherwise it cancels the timer,
swaps the queue out as a batch and hands it to the retry-wrapped write,
which is recorded as the new in-flight write. -/
def flushNow (s : SlotState) : SlotState :=
  match s.flushPromise with
  | some _ => { s with chained := s.chained + 1 }
  | none =>
    if s.queue = [] then s
    else
      { s with queue := [], timer := false,
               flushPromise := some s.queue,
               batches := s.batches ++ [s.queue],
               events := s.events ++ [WriteEvent.wstart s.queue] }

/-- TransportSlot.armTimer (lines 93-99): arm the one-shot lazy timer
unless one is already pending or flushInterval is disabled. -/
def armTimer (cfg : TransportConfig) (s : SlotState) : SlotState :=
  if s.timer ∨ cfg.flushInterval ≤ 0 then s else { s with timer := true }

/-- Run n chained flushNow continuations in registration order. -/
def flushIter : Nat → SlotState → SlotState
  | 0, s => s
  | n + 1, s => flushIter n (flushNow s)

/-- Settlement of the in-flight write: the finally handler clears
flushPromise (line 117-119), then every then-continuation registered by
chained flushNow calls (line 104) runs, each re-invoking flushNow. -/
def completeWrite (s : SlotState) : SlotState :=
  match s.flushPromise with
  | none => s
  | some _ =>
    flushIter s.chained
      { s with flushPromise := none, chained := 0,
               events := s.events ++ [WriteEvent.wdone] }

/-- The lazy timer firing (lines 95-98): clears itself then flushes. -/
def fireTimer (s : SlotState) : SlotState :=
  if s.timer then flushNow { s with timer := false } else s

/-- Step 1 of TransportSlot.enqueue (lines 54-56): the minLevel filter. -/
def levelPass (minLevel : Option String) (e : LogEntry) : Bool :=
  match minLevel with
  | some ml => if levelIndex e.level < levelIndex ml then false else true
  | none => true

/-- Steps 3-5 of TransportSlot.enqueue (lines 61-76): rate limit, push
with eviction, then flush immediately or defer via the lazy timer. -/
def enqueueAfterFilters (cfg : TransportConfig) (s : SlotState) (e : LogEntry)
    (now : Nat) : SlotState :=
  match isRateLimited cfg.rateLimit s.rateLimitCount s.rateLimitWindowStart now with
  | (true, c, w) => { s with rateLimitCount := c, rateLimitWindowStart := w }
  | (false, c, w) =>
    if cfg.batchSize ≤ 1 ∨
        cfg.batchSize ≤ (pushEvict cfg.maxQueueSize s.queue e).length then
      flushNow { s with rateLimitCount := c, rateLimitWindowStart := w,
                        queue := pushEvict cfg.maxQueueSize s.queue e }
    else
      armTimer cfg { s with rateLimitCount := c, rateLimitWindowStart := w,
                            queue := pushEvict cfg.maxQueueSize s.queue e }

/-- TransportSlot.enqueue (lines 52-76).  An Except.error result is a
synchronous exception propagating to the caller; it can only originate in
the user supplied filter callback (line 59), which runs after the
minLevel check and before the rate limit check. -/
def enqueueE (cfg : TransportConfig) (s : SlotState) (e : LogEntry)
    (now : Nat) : Except String SlotState :=
  if levelPass cfg.minLevel e = false then .ok s
  else
    match cfg.filter with
    | none => .ok (enqueueAfterFilters cfg s e now)
    | some f =>
      match f e with
      | .error msg => .error msg
      | .ok true => .ok (enqueueAfterFilters cfg s e now)
      | .ok false => .ok s

/-- The external stimuli of one slot: a dispatched log entry arriving at
time now, the lazy timer firing, an external flush call, and settlement
of the in-flight write. -/
inductive SlotAction where
  | log (e : LogEntry) (now : Nat)
  | timerFire
  | flushCall
  | writeComplete
deriving Repr

/-- One step of the slot state machine.  A filter exception aborts enqueue
before any state mutation, so the state is unchanged in that case. -/
def stepAct (cfg : TransportConfig) (s : SlotState) (a : SlotAction) : SlotState :=
  match a with
  | .log e now => ((enqueueE cfg s e now).toOption).getD s
  | .timerFire => fireTimer s
  | .flushCall => flushNow s
  | .writeComplete => completeWrite s

/-- Run the slot state machine over a list of stimuli. -/
def runTrace (cfg : TransportConfig) (s : SlotState) (tr : List SlotAction) :
    SlotState :=
  tr.foldl (stepAct cfg) s

/-- The sequence of entries offered to the slot by a trace, in order. -/
def inputsOf : List SlotAction → List LogEntry
  | [] => []
  | SlotAction.log e _ :: tr => e :: inputsOf tr
  | _ :: tr => inputsOf tr

/-- Everything the slot has handed to (or still owes) its transport:
batches delivered so far, followed by the entries still queued. -/
def flatBQ (s : SlotState) : List LogEntry := s.batches.flatten ++ s.queue

/-- Reference admission state: the admitted entries in admission order,
plus the rate window fields. -/
structure AdmState where
  admitted : List LogEntry := []
  count : Nat := 0
  winStart : Nat := 0
deriving Repr

/-- Rate-limit part of the reference admission fold. -/
def admRate (rateLimit : Nat) (a : AdmState) (e : LogEntry) (now : Nat) :
    AdmState :=
  match isRateLimited rateLimit a.count a.winStart now with
  | (true, c, w) => { a with count := c, winStart := w }
  | (false, c, w) => { admitted := a.admitted ++ [e], count := c, winStart := w }

/-- Reference admission fold: which entries of a trace pass the minLevel
filter, the custom filter and the rate limiter (claim C1's notion of an
admitted entry), independent of the queue and flush mechanics. -/
def admStep (cfg : TransportConfig) (a : AdmState) : SlotAction → AdmState
  | SlotAction.log e now =>
    if levelPass cfg.minLevel e = false then a
    else
      match cfg.filter with
      | none => admRate cfg.rateLimit a e now
      | some f =>
        match f e with
        | .ok true => admRate cfg.rateLimit a e now
        | _ => a
  | _ => a

/-- The admitted entries of a whole trace, in admission order. -/
def admittedSpec (cfg : TransportConfig) (tr : List SlotAction) : AdmState :=
  tr.foldl (admStep cfg) {}

/-- Validity automaton for write lifecycle events: starting from in-flight
flag b, consume the event list; a write may start only when none is in
flight and settle only when one is.  Returns the final in-flight flag, or
none when the event list shows two overlapping writes (or a settlement
with no write in flight). -/
def wfRun : Bool → List WriteEvent → Option Bool
  | b, [] => some b
  | false, WriteEvent.wstart _ :: t => wfRun true t
  | false, WriteEvent.wdone :: _ => none
  | true, WriteEvent.wstart _ :: _ => none
  | true, WriteEvent.wdone :: t => wfRun false t

/-- TransportSlot.doWrite (lines 123-141) on one batch, abstracted over
the transport outcomes: writeOk k tells whether the (k+1)-th write call
for this batch succeeds (a synchronous throw and a rejected promise are
identical failures).  The attempt counter of the source counts retries
performed so far and starts at 0.  Returns the number of write calls made
and whether the batch was delivered.  The recursion is fuelled; doWrite
supplies fuel maxRetries + 1, which is exact: the loop performs at most
one initial call plus maxRetries retries. -/
def doWriteAux (writeOk : Nat → Bool) (maxRetries : Nat) :
    Nat → Nat → Nat × Bool
  | _, 0 => (0, false)
  | attempt, fuel + 1 =>
    if writeOk attempt then (1, true)
    else if maxRetries ≤ attempt then (1, false)
    else
      match doWriteAux writeOk maxRetries (attempt + 1) fuel with
      | (n, d) => (n + 1, d)

/-- The retry-wrapped write on one batch. -/
def doWrite (writeOk : Nat → Bool) (maxRetries : Nat) : Nat × Bool :=
  doWriteAux writeOk maxRetries 0 (maxRetries + 1)

/-- Fold the rate limiter over a list of admission-check times, counting
admissions and rejections (in that order). -/
def rlRun (rateLimit : Nat) : Nat → Nat → List Nat → Nat × Nat
  | _, _, [] => (0, 0)
  | c, w, t :: ts =>
    match isRateLimited rateLimit c w t with
    | (true, c2, w2) =>
      match rlRun rateLimit c2 w2 ts with
      | (a, d) => (a, d + 1)
    | (false, c2, w2) =>
      match rlRun rateLimit c2 w2 ts with
      | (a, d) => (a + 1, d)

/-- VALID_LEVELS from constants.ts. -/
def VALID_LEVELS : List String := LEVEL_ORDER

/-- VALID_MODES from constants.ts. -/
def VALID_MODES : List String := ["pretty", "json", "silent"]

/-- isValidLevel from src/utils/validate.ts. -/
def isValidLevel (v : String) : Bool := VALID_LEVELS.contains v

/-- isValidMode from src/utils/validate.ts. -/
def isValidMode (v : String) : Bool := VALID_MODES.contains v

/-- LogConfig: the argument of CoreLogger.configure.  Level and mode
arrive as arbitrary strings (invalid values are exactly what
validateConfig exists to reject); transports is the list of per-transport
configurations. -/
structure LogConfig where
  level : Option String := none
  mode : Option String := none
  serviceName : Option String := none
  transports : Option (List TransportConfig) := none

/-- validateConfig from src/utils/validate.ts: reject an invalid level,
then an invalid mode, then a serviceName that trims to the empty
string. -/
def validateConfig (c : LogConfig) : Except String Unit :=
  if (match c.level with | some l => !isValidLevel l | none => false) then
    .error "Invalid log level"
  else if (match c.mode with | some m => !isValidMode m | none => false) then
    .error "Invalid log mode"
  else if (match c.serviceName with
           | some s => s.trim == "" | none => false) then
    .error "serviceName cannot be empty"
  else .ok ()

/-- The static state of CoreLogger (CoreLogger.ts lines 10-18).  A slot is
its resolved configuration together with its mutable state. -/
structure CoreState where
  level : String
  mode : String
  serviceName : String
  slots : List (TransportConfig × SlotState)

/-- toSlot from TransportSlot.ts lines 162-167: wrap a transport
configuration into a freshly constructed slot (a bare transport is the
all-default configuration). -/
def toSlot (cfg : TransportConfig) : TransportConfig × SlotState :=
  (cfg, initSlot)

/-- CoreLogger.configure (lines 153-162): validate first, then apply the
present fields and rebuild the slot collection.  A validation exception
propagates before any assignment, so the prior state is returned
untouched together with the error. -/
def configure (st : CoreState) (c : LogConfig) : CoreState × Option String :=
  match validateConfig c with
  | .error e => (st, some e)
  | .ok _ =>
    ({ level := (c.level).getD st.level,
       mode := (c.mode).getD st.mode,
       serviceName := (c.serviceName).getD st.serviceName,
       slots := match c.transports with
                | none => st.slots
                | some ts => ts.map toSlot }, none)

/-- CoreLogger.dispatch (lines 26-30): enqueue the entry into every slot
in order.  A filter exception in one slot propagates out of the loop. -/
def dispatchSlots (entry : LogEntry) (now : Nat) :
    List (TransportConfig × SlotState) →
    Except String (List (TransportConfig × SlotState))
  | [] => .ok []
  | (cfg, s) :: rest =>
    match enqueueE cfg s entry now with
    | .error e => .error e
    | .ok s2 =>
      match dispatchSlots entry now rest with
      | .error e => .error e
      | .ok rest2 => .ok ((cfg, s2) :: rest2)

/-- The JavaScript object spread of two metadata records, second one
winning on key collisions, modelled on association lists. -/
def spreadMerge (a b : List (String × String)) : List (String × String) :=
  a.filter (fun p => (b.lookup p.1).isNone) ++ b

/-- The LogEntry assembled by CoreLogger.write (lines 41-56): the merged
metadata is the object spread of context then meta (present only when at
least one of them is), and scope is included only when present. -/
def mkEntry (service level message : String)
    (meta context : Option (List (String × String))) (scope : Option String)
    (time : String) : LogEntry :=
  { level := level, msg := message, time := time, service := service,
    scope := scope,
    meta := if meta.isSome ∨ context.isSome then
        some (spreadMerge (context.getD []) (meta.getD []))
      else none }

/-- Lines 48-57 of CoreLogger.write: dispatch to the slots when there are
any (CoreLogger.dispatch, lines 26-30). -/
def dispatchPart (st : CoreState) (entry : LogEntry) (now : Nat) :
    Except String (List (TransportConfig × SlotState)) :=
  if st.slots.isEmpty then .ok st.slots else dispatchSlots entry now st.slots

/-- CoreLogger.write (lines 32-91).  Returns the updated state together
with a flag telling whether console output is produced; the console
rendering itself (pretty and json formatting) is outside the delivery
pipeline and is not modelled.  The transport dispatch (lines 47-57) runs
before the mode check (line 60), which only gates console output. -/
def write (st : CoreState) (level message : String)
    (meta context : Option (List (String × String))) (scope : Option String)
    (time : String) (now : Nat) : Except String (CoreState × Bool) :=
  if levelIndex level < levelIndex st.level then .ok (st, false)
  else
    match dispatchPart st
        (mkEntry st.serviceName level message meta context scope time) now with
    | .error e => .error e
    | .ok slots2 =>
      .ok ({ st with slots := slots2 }, !(st.mode == "silent"))

/-! ### Basic lemmas about the slot state machine -/

theorem flushNow_some (s : SlotState) (b : List LogEntry)
    (h : s.flushPromise = some b) :
    flushNow s = { s with chained := s.chained + 1 } := by
  unfold flushNow
  rw [h]

theorem flushNow_empty (s : SlotState) (hq : s.queue = [])
    (hp : s.flushPromise = none) : flushNow s = s := by
  unfold flushNow
  rw [hp]
  simp [hq]

theorem flatBQ_flushNow (s : SlotState) : flatBQ (flushNow s) = flatBQ s := by
  unfold flushNow
  cases s.flushPromise with
  | some b => rfl
  | none =>
    by_cases hq : s.queue = []
    · simp [hq]
    · simp [hq, flatBQ]

theorem flatBQ_flushIter (n : Nat) (s : SlotState) :
    flatBQ (flushIter n s) = flatBQ s := by
  induction n generalizing s with
  | zero => rfl
  | succ n ih => rw [flushIter, ih, flatBQ_flushNow]

theorem flatBQ_completeWrite (s : SlotState) :
    flatBQ (completeWrite s) = flatBQ s := by
  unfold completeWrite
  cases s.flushPromise with
  | none => rfl
  | some b => rw [flatBQ_flushIter]; rfl

theorem flatBQ_armTimer (cfg : TransportConfig) (s : SlotState) :
    flatBQ (armTimer cfg s) = flatBQ s := by
  unfold armTimer
  split <;> rfl

theorem flatBQ_fireTimer (s : SlotState) : flatBQ (fireTimer s) = flatBQ s := by
  unfold fireTimer
  split
  · rw [flatBQ_flushNow]; rfl
  · rfl

theorem rate_flushNow (s : SlotState) :
    (flushNow s).rateLimitCount = s.rateLimitCount ∧
    (flushNow s).rateLimitWindowStart = s.rateLimitWindowStart := by
  unfold flushNow
  cases s.flushPromise with
  | some b => exact ⟨rfl, rfl⟩
  | none => by_cases hq : s.queue = [] <;> simp [hq]

theorem rate_flushIter (n : Nat) (s : SlotState) :
    (flushIter n s).rateLimitCount = s.rateLimitCount ∧
    (flushIter n s).rateLimitWindowStart = s.rateLimitWindowStart := by
  induction n generalizing s with
  | zero => exact ⟨rfl, rfl⟩
  | succ n ih =>
    rw [flushIter]
    obtain ⟨h1, h2⟩ := ih (flushNow s)
    obtain ⟨h3, h4⟩ := rate_flushNow s
    exact ⟨h1.trans h3, h2.trans h4⟩

theorem rate_completeWrite (s : SlotState) :
    (completeWrite s).rateLimitCount = s.rateLimitCount ∧
    (completeWrite s).rateLimitWindowStart = s.rateLimitWindowStart := by
  unfold completeWrite
  cases s.flushPromise with
  | none => exact ⟨rfl, rfl⟩
  | some b => exact rate_flushIter _ _

theorem rate_armTimer (cfg : TransportConfig) (s : SlotState) :
    (armTimer cfg s).rateLimitCount = s.rateLimitCount ∧
    (armTimer cfg s).rateLimitWindowStart = s.rateLimitWindowStart := by
  unfold armTimer
  split <;> exact ⟨rfl, rfl⟩

theorem rate_fireTimer (s : SlotState) :
    (fireTimer s).rateLimitCount = s.rateLimitCount ∧
    (fireTimer s).rateLimitWindowStart = s.rateLimitWindowStart := by
  unfold fireTimer
  split
  · exact rate_flushNow _
  · exact ⟨rfl, rfl⟩

theorem pushEvict_ne_nil (N : Nat) (q : List LogEntry) (e : LogEntry) :
    pushEvict N q e ≠ [] := by
  unfold pushEvict
  split
  · next h =>
    have hlen : 1 < (q ++ [e]).length := by
      have := h.1
      have := h.2
      omega
    have : 0 < (q ++ [e]).tail.length := by
      rw [List.length_tail]
      omega
    exact List.ne_nil_of_length_pos this
  · simp

theorem pushEvict_zero (q : List LogEntry) (e : LogEntry) :
    pushEvict 0 q e = q ++ [e] := by
  unfold pushEvict
  simp

/-! ### Equation lemmas for enqueue -/

theorem eaf_eq_limited (cfg : TransportConfig) (s : SlotState) (e : LogEntry)
    (now c w : Nat)
    (h : isRateLimited cfg.rateLimit s.rateLimitCount s.rateLimitWindowStart now
      = (true, c, w)) :
    enqueueAfterFilters cfg s e now
      = { s with rateLimitCount := c, rateLimitWindowStart := w } := by
  unfold enqueueAfterFilters
  rw [h]

theorem eaf_eq_flush (cfg : TransportConfig) (s : SlotState) (e : LogEntry)
    (now c w : Nat)
    (h : isRateLimited cfg.rateLimit s.rateLimitCount s.rateLimitWindowStart now
      = (false, c, w))
    (hcond : cfg.batchSize ≤ 1 ∨
      cfg.batchSize ≤ (pushEvict cfg.maxQueueSize s.queue e).length) :
    enqueueAfterFilters cfg s e now
      = flushNow { s with rateLimitCount := c, rateLimitWindowStart := w,
                          queue := pushEvict cfg.maxQueueSize s.queue e } := by
  unfold enqueueAfterFilters
  rw [h]
  exact if_pos hcond

theorem eaf_eq_timer (cfg : TransportConfig) (s : SlotState) (e : LogEntry)
    (now c w : Nat)
    (h : isRateLimited cfg.rateLimit s.rateLimitCount s.rateLimitWindowStart now
      = (false, c, w))
    (hcond : ¬ (cfg.batchSize ≤ 1 ∨
      cfg.batchSize ≤ (pushEvict cfg.maxQueueSize s.queue e).length)) :
    enqueueAfterFilters cfg s e now
      = armTimer cfg { s with rateLimitCount := c, rateLimitWindowStart := w,
                              queue := pushEvict cfg.maxQueueSize s.queue e } := by
  unfold enqueueAfterFilters
  rw [h]
  exact if_neg hcond

theorem enqueueE_eq_level (cfg : TransportConfig) (s : SlotState) (e : LogEntry)
    (now : Nat) (hl : levelPass cfg.minLevel e = false) :
    enqueueE cfg s e now = .ok s := by
  unfold enqueueE
  simp [hl]

theorem enqueueE_eq_none (cfg : TransportConfig) (s : SlotState) (e : LogEntry)
    (now : Nat) (hl : levelPass cfg.minLevel e = true)
    (hf : cfg.filter = none) :
    enqueueE cfg s e now = .ok (enqueueAfterFilters cfg s e now) := by
  unfold enqueueE
  simp [hl, hf]

theorem enqueueE_eq_err (cfg : TransportConfig) (s : SlotState) (e : LogEntry)
    (now : Nat) (f : LogEntry → Except String Bool) (m : String)
    (hl : levelPass cfg.minLevel e = true) (hf : cfg.filter = some f)
    (hfe : f e = .error m) :
    enqueueE cfg s e now = .error m := by
  unfold enqueueE
  simp [hl, hf, hfe]

theorem enqueueE_eq_true (cfg : TransportConfig) (s : SlotState) (e : LogEntry)
    (now : Nat) (f : LogEntry → Except String Bool)
    (hl : levelPass cfg.minLevel e = true) (hf : cfg.filter = some f)
    (hfe : f e = .ok true) :
    enqueueE cfg s e now = .ok (enqueueAfterFilters cfg s e now) := by
  unfold enqueueE
  simp [hl, hf, hfe]

theorem enqueueE_eq_false (cfg : TransportConfig) (s : SlotState) (e : LogEntry)
    (now : Nat) (f : LogEntry → Except String Bool)
    (hl : levelPass cfg.minLevel e = true) (hf : cfg.filter = some f)
    (hfe : f e = .ok false) :
    enqueueE cfg s e now = .ok s := by
  unfold enqueueE
  simp [hl, hf, hfe]

theorem stepAct_log (cfg : TransportConfig) (s : SlotState) (e : LogEntry)
    (now : Nat) :
    stepAct cfg s (SlotAction.log e now)
      = ((enqueueE cfg s e now).toOption).getD s := rfl

/-! ### FIFO: the delivered batches plus the queue form an order-preserving
subsequence of the offered entries, and equal the admitted entries when no
eviction is configured. -/

theorem flatBQ_enqueueAfterFilters_sublist (cfg : TransportConfig)
    (s : SlotState) (e : LogEntry) (now : Nat) :
    (flatBQ (enqueueAfterFilters cfg s e now)).Sublist (flatBQ s ++ [e]) := by
  have hsub : (s.batches.flatten ++ pushEvict cfg.maxQueueSize s.queue e).Sublist
      (flatBQ s ++ [e]) := by
    unfold pushEvict
    split
    · have h1 := (List.tail_sublist (s.queue ++ [e])).append_left
        s.batches.flatten
      simpa [flatBQ, List.append_assoc] using h1
    · simp [flatBQ, List.append_assoc]
  rcases hRL : isRateLimited cfg.rateLimit s.rateLimitCount
      s.rateLimitWindowStart now with ⟨lim, c, w⟩
  cases lim with
  | true =>
    rw [eaf_eq_limited cfg s e now c w hRL]
    exact List.sublist_append_left _ _
  | false =>
    by_cases hcond : cfg.batchSize ≤ 1 ∨
        cfg.batchSize ≤ (pushEvict cfg.maxQueueSize s.queue e).length
    · rw [eaf_eq_flush cfg s e now c w hRL hcond, flatBQ_flushNow]
      exact hsub
    · rw [eaf_eq_timer cfg s e now c w hRL hcond, flatBQ_armTimer]
      exact hsub

theorem flatBQ_enqueueE_sublist (cfg : TransportConfig) (s : SlotState)
    (e : LogEntry) (now : Nat) :
    (flatBQ (((enqueueE cfg s e now).toOption).getD s)).Sublist
      (flatBQ s ++ [e]) := by
  cases hl : levelPass cfg.minLevel e with
  | false =>
    rw [enqueueE_eq_level cfg s e now hl]
    exact List.sublist_append_left _ _
  | true =>
    cases hf : cfg.filter with
    | none =>
      rw [enqueueE_eq_none cfg s e now hl hf]
      exact flatBQ_enqueueAfterFilters_sublist cfg s e now
    | some f =>
      cases hfe : f e with
      | error m =>
        rw [enqueueE_eq_err cfg s e now f m hl hf hfe]
        exact List.sublist_append_left _ _
      | ok b =>
        cases b with
        | false =>
          rw [enqueueE_eq_false cfg s e now f hl hf hfe]
          exact List.sublist_append_left _ _
        | true =>
          rw [enqueueE_eq_true cfg s e now f hl hf hfe]
          exact flatBQ_enqueueAfterFilters_sublist cfg s e now

theorem flatBQ_step_sublist (cfg : TransportConfig) (s : SlotState)
    (a : SlotAction) :
    (flatBQ (stepAct cfg s a)).Sublist (flatBQ s ++ inputsOf [a]) := by
  cases a with
  | log e now =>
    rw [stepAct_log]
    exact flatBQ_enqueueE_sublist cfg s e now
  | timerFire =>
    show (flatBQ (fireTimer s)).Sublist (flatBQ s ++ [])
    rw [flatBQ_fireTimer, List.append_nil]
  | flushCall =>
    show (flatBQ (flushNow s)).Sublist (flatBQ s ++ [])
    rw [flatBQ_flushNow, List.append_nil]
  | writeComplete =>
    show (flatBQ (completeWrite s)).Sublist (flatBQ s ++ [])
    rw [flatBQ_completeWrite, List.append_nil]

theorem flatBQ_runTrace_sublist (cfg : TransportConfig) :
    ∀ (tr : List SlotAction) (s : SlotState),
      (flatBQ (runTrace cfg s tr)).Sublist (flatBQ s ++ inputsOf tr) := by
  intro tr
  induction tr with
  | nil => intro s; simp [runTrace, inputsOf]
  | cons a tr ih =>
    intro s
    have h2 := ih (stepAct cfg s a)
    have h3 := (flatBQ_step_sublist cfg s a).append
      (List.Sublist.refl (inputsOf tr))
    have h4 : (flatBQ (runTrace cfg s (a :: tr))).Sublist
        ((flatBQ s ++ inputsOf [a]) ++ inputsOf tr) := h2.trans h3
    cases a with
    | log e now => simpa [inputsOf, List.append_assoc] using h4
    | timerFire => simpa [inputsOf] using h4
    | flushCall => simpa [inputsOf] using h4
    | writeComplete => simpa [inputsOf] using h4

/-- Relation between a slot state and the reference admission fold state. -/
def slotMatchesAdm (s : SlotState) (a : AdmState) : Prop :=
  flatBQ s = a.admitted ∧ s.rateLimitCount = a.count ∧
    s.rateLimitWindowStart = a.winStart

theorem eaf_matches (cfg : TransportConfig) (hN : cfg.maxQueueSize = 0)
    (s : SlotState) (a : AdmState) (e : LogEntry) (now : Nat)
    (h : slotMatchesAdm s a) :
    slotMatchesAdm (enqueueAfterFilters cfg s e now)
      (admRate cfg.rateLimit a e now) := by
  obtain ⟨h1, h2, h3⟩ := h
  rcases hRL : isRateLimited cfg.rateLimit s.rateLimitCount
      s.rateLimitWindowStart now with ⟨lim, c, w⟩
  have hRL2 : isRateLimited cfg.rateLimit a.count a.winStart now
      = (lim, c, w) := by rw [← h2, ← h3]; exact hRL
  have hpe : pushEvict cfg.maxQueueSize s.queue e = s.queue ++ [e] := by
    rw [hN, pushEvict_zero]
  cases lim with
  | true =>
    have hadm : admRate cfg.rateLimit a e now
        = { a with count := c, winStart := w } := by
      unfold admRate
      rw [hRL2]
    rw [eaf_eq_limited cfg s e now c w hRL, hadm]
    exact ⟨h1, rfl, rfl⟩
  | false =>
    have hadm : admRate cfg.rateLimit a e now
        = { admitted := a.admitted ++ [e], count := c, winStart := w } := by
      unfold admRate
      rw [hRL2]
    set s2 : SlotState := { s with rateLimitCount := c, rateLimitWindowStart := w, queue := pushEvict cfg.maxQueueSize s.queue e } with hs2
    have hflat : flatBQ s2 = a.admitted ++ [e] := by
      show s.batches.flatten ++ pushEvict cfg.maxQueueSize s.queue e
        = a.admitted ++ [e]
      rw [hpe, ← List.append_assoc]
      exact congrArg (· ++ [e]) h1
    by_cases hcond : cfg.batchSize ≤ 1 ∨
        cfg.batchSize ≤ (pushEvict cfg.maxQueueSize s.queue e).length
    · rw [eaf_eq_flush cfg s e now c w hRL hcond, hadm]
      exact ⟨(flatBQ_flushNow s2).trans hflat, (rate_flushNow s2).1,
        (rate_flushNow s2).2⟩
    · rw [eaf_eq_timer cfg s e now c w hRL hcond, hadm]
      exact ⟨(flatBQ_armTimer cfg s2).trans hflat, (rate_armTimer cfg s2).1,
        (rate_armTimer cfg s2).2⟩

theorem admStep_eq_level (cfg : TransportConfig) (a : AdmState) (e : LogEntry)
    (now : Nat) (hl : levelPass cfg.minLevel e = false) :
    admStep cfg a (SlotAction.log e now) = a := by
  unfold admStep
  simp [hl]

theorem admStep_eq_none (cfg : TransportConfig) (a : AdmState) (e : LogEntry)
    (now : Nat) (hl : levelPass cfg.minLevel e = true)
    (hf : cfg.filter = none) :
    admStep cfg a (SlotAction.log e now) = admRate cfg.rateLimit a e now := by
  unfold admStep
  simp [hl, hf]

theorem admStep_eq_err (cfg : TransportConfig) (a : AdmState) (e : LogEntry)
    (now : Nat) (f : LogEntry → Except String Bool) (m : String)
    (hl : levelPass cfg.minLevel e = true) (hf : cfg.filter = some f)
    (hfe : f e = .error m) :
    admStep cfg a (SlotAction.log e now) = a := by
  unfold admStep
  simp [hl, hf, hfe]

theorem admStep_eq_true (cfg : TransportConfig) (a : AdmState) (e : LogEntry)
    (now : Nat) (f : LogEntry → Except String Bool)
    (hl : levelPass cfg.minLevel e = true) (hf : cfg.filter = some f)
    (hfe : f e = .ok true) :
    admStep cfg a (SlotAction.log e now) = admRate cfg.rateLimit a e now := by
  unfold admStep
  simp [hl, hf, hfe]

theorem admStep_eq_false (cfg : TransportConfig) (a : AdmState) (e : LogEntry)
    (now : Nat) (f : LogEntry → Except String Bool)
    (hl : levelPass cfg.minLevel e = true) (hf : cfg.filter = some f)
    (hfe : f e = .ok false) :
    admStep cfg a (SlotAction.log e now) = a := by
  unfold admStep
  simp [hl, hf, hfe]

theorem stepLog_matches (cfg : TransportConfig) (hN : cfg.maxQueueSize = 0)
    (s : SlotState) (a : AdmState) (e : LogEntry) (now : Nat)
    (h : slotMatchesAdm s a) :
    slotMatchesAdm (stepAct cfg s (SlotAction.log e now))
      (admStep cfg a (SlotAction.log e now)) := by
  rw [stepAct_log]
  cases hl : levelPass cfg.minLevel e with
  | false =>
    rw [enqueueE_eq_level cfg s e now hl, admStep_eq_level cfg a e now hl]
    exact h
  | true =>
    cases hf : cfg.filter with
    | none =>
      rw [enqueueE_eq_none cfg s e now hl hf, admStep_eq_none cfg a e now hl hf]
      exact eaf_matches cfg hN s a e now h
    | some f =>
      cases hfe : f e with
      | error m =>
        rw [enqueueE_eq_err cfg s e now f m hl hf hfe,
          admStep_eq_err cfg a e now f m hl hf hfe]
        exact h
      | ok b =>
        cases b with
        | false =>
          rw [enqueueE_eq_false cfg s e now f hl hf hfe,
            admStep_eq_false cfg a e now f hl hf hfe]
          exact h
        | true =>
          rw [enqueueE_eq_true cfg s e now f hl hf hfe,
            admStep_eq_true cfg a e now f hl hf hfe]
          exact eaf_matches cfg hN s a e now h

theorem step_matches (cfg : TransportConfig) (hN : cfg.maxQueueSize = 0)
    (s : SlotState) (a : AdmState) (act : SlotAction)
    (h : slotMatchesAdm s a) :
    slotMatchesAdm (stepAct cfg s act) (admStep cfg a act) := by
  obtain ⟨h1, h2, h3⟩ := h
  cases act with
  | log e now => exact stepLog_matches cfg hN s a e now ⟨h1, h2, h3⟩
  | timerFire =>
    exact ⟨(flatBQ_fireTimer s).trans h1, (rate_fireTimer s).1.trans h2,
      (rate_fireTimer s).2.trans h3⟩
  | flushCall =>
    exact ⟨(flatBQ_flushNow s).trans h1, (rate_flushNow s).1.trans h2,
      (rate_flushNow s).2.trans h3⟩
  | writeComplete =>
    exact ⟨(flatBQ_completeWrite s).trans h1, (rate_completeWrite s).1.trans h2,
      (rate_completeWrite s).2.trans h3⟩

theorem runTrace_matches (cfg : TransportConfig) (hN : cfg.maxQueueSize = 0) :
    ∀ (tr : List SlotAction) (s : SlotState) (a : AdmState),
      slotMatchesAdm s a →
      slotMatchesAdm (runTrace cfg s tr) (tr.foldl (admStep cfg) a) := by
  intro tr
  induction tr with
  | nil => intro s a h; exact h
  | cons act tr ih =>
    intro s a h
    exact ih (stepAct cfg s act) (admStep cfg a act)
      (step_matches cfg hN s a act h)

/-! ### Delivery draws only from admitted entries, for every
configuration (eviction included) -/

theorem flatten_pushEvict_sublist (bs : List (List LogEntry))
    (q : List LogEntry) (e : LogEntry) (N : Nat) :
    (bs.flatten ++ pushEvict N q e).Sublist ((bs.flatten ++ q) ++ [e]) := by
  unfold pushEvict
  split
  · have h1 := (List.tail_sublist (q ++ [e])).append_left bs.flatten
    simpa [List.append_assoc] using h1
  · simp [List.append_assoc]

/-- Sublist variant of the lockstep relation: the slot's delivered and
queued entries form an order-preserving subsequence of the admitted
entries (they can fall short of them only by eviction), and the rate
window fields agree. -/
def slotCoversAdm (s : SlotState) (a : AdmState) : Prop :=
  (flatBQ s).Sublist a.admitted ∧ s.rateLimitCount = a.count ∧
    s.rateLimitWindowStart = a.winStart

theorem eaf_covers (cfg : TransportConfig) (s : SlotState) (a : AdmState)
    (e : LogEntry) (now : Nat) (h : slotCoversAdm s a) :
    slotCoversAdm (enqueueAfterFilters cfg s e now)
      (admRate cfg.rateLimit a e now) := by
  obtain ⟨h1, h2, h3⟩ := h
  rcases hRL : isRateLimited cfg.rateLimit s.rateLimitCount
      s.rateLimitWindowStart now with ⟨lim, c, w⟩
  have hRL2 : isRateLimited cfg.rateLimit a.count a.winStart now
      = (lim, c, w) := by rw [← h2, ← h3]; exact hRL
  cases lim with
  | true =>
    have hadm : admRate cfg.rateLimit a e now
        = { a with count := c, winStart := w } := by
      unfold admRate
      rw [hRL2]
    rw [eaf_eq_limited cfg s e now c w hRL, hadm]
    exact ⟨h1, rfl, rfl⟩
  | false =>
    have hadm : admRate cfg.rateLimit a e now
        = { admitted := a.admitted ++ [e], count := c, winStart := w } := by
      unfold admRate
      rw [hRL2]
    set s2 : SlotState := { s with rateLimitCount := c, rateLimitWindowStart := w, queue := pushEvict cfg.maxQueueSize s.queue e } with hs2
    have hflat : (flatBQ s2).Sublist (a.admitted ++ [e]) := by
      show (s.batches.flatten ++ pushEvict cfg.maxQueueSize s.queue e).Sublist
        (a.admitted ++ [e])
      exact (flatten_pushEvict_sublist s.batches s.queue e
        cfg.maxQueueSize).trans (h1.append (List.Sublist.refl [e]))
    by_cases hcond : cfg.batchSize ≤ 1 ∨
        cfg.batchSize ≤ (pushEvict cfg.maxQueueSize s.queue e).length
    · rw [eaf_eq_flush cfg s e now c w hRL hcond, hadm]
      refine ⟨?_, (rate_flushNow s2).1, (rate_flushNow s2).2⟩
      rw [flatBQ_flushNow]
      exact hflat
    · rw [eaf_eq_timer cfg s e now c w hRL hcond, hadm]
      refine ⟨?_, (rate_armTimer cfg s2).1, (rate_armTimer cfg s2).2⟩
      rw [flatBQ_armTimer]
      exact hflat

theorem stepLog_covers (cfg : TransportConfig) (s : SlotState) (a : AdmState)
    (e : LogEntry) (now : Nat) (h : slotCoversAdm s a) :
    slotCoversAdm (stepAct cfg s (SlotAction.log e now))
      (admStep cfg a (SlotAction.log e now)) := by
  rw [stepAct_log]
  cases hl : levelPass cfg.minLevel e with
  | false =>
    rw [enqueueE_eq_level cfg s e now hl, admStep_eq_level cfg a e now hl]
    exact h
  | true =>
    cases hf : cfg.filter with
    | none =>
      rw [enqueueE_eq_none cfg s e now hl hf, admStep_eq_none cfg a e now hl hf]
      exact eaf_covers cfg s a e now h
    | some f =>
      cases hfe : f e with
      | error m =>
        rw [enqueueE_eq_err cfg s e now f m hl hf hfe,
          admStep_eq_err cfg a e now f m hl hf hfe]
        exact h
      | ok b =>
        cases b with
        | false =>
          rw [enqueueE_eq_false cfg s e now f hl hf hfe,
            admStep_eq_false cfg a e now f hl hf hfe]
          exact h
        | true =>
          rw [enqueueE_eq_true cfg s e now f hl hf hfe,
            admStep_eq_true cfg a e now f hl hf hfe]
          exact eaf_covers cfg s a e now h

theorem step_covers (cfg : TransportConfig) (s : SlotState) (a : AdmState)
    (act : SlotAction) (h : slotCoversAdm s a) :
    slotCoversAdm (stepAct cfg s act) (admStep cfg a act) := by
  obtain ⟨h1, h2, h3⟩ := h
  cases act with
  | log e now => exact stepLog_covers cfg s a e now ⟨h1, h2, h3⟩
  | timerFire =>
    refine ⟨?_, (rate_fireTimer s).1.trans h2, (rate_fireTimer s).2.trans h3⟩
    show (flatBQ (fireTimer s)).Sublist
      (admStep cfg a SlotAction.timerFire).admitted
    rw [flatBQ_fireTimer]
    exact h1
  | flushCall =>
    refine ⟨?_, (rate_flushNow s).1.trans h2, (rate_flushNow s).2.trans h3⟩
    show (flatBQ (flushNow s)).Sublist
      (admStep cfg a SlotAction.flushCall).admitted
    rw [flatBQ_flushNow]
    exact h1
  | writeComplete =>
    refine ⟨?_, (rate_completeWrite s).1.trans h2,
      (rate_completeWrite s).2.trans h3⟩
    show (flatBQ (completeWrite s)).Sublist
      (admStep cfg a SlotAction.writeComplete).admitted
    rw [flatBQ_completeWrite]
    exact h1

theorem runTrace_covers (cfg : TransportConfig) :
    ∀ (tr : List SlotAction) (s : SlotState) (a : AdmState),
      slotCoversAdm s a →
      slotCoversAdm (runTrace cfg s tr) (tr.foldl (admStep cfg) a) := by
  intro tr
  induction tr with
  | nil => intro s a h; exact h
  | cons act tr ih =>
    intro s a h
    exact ih (stepAct cfg s act) (admStep cfg a act)
      (step_covers cfg s a act h)

/-! ### At most one write in flight -/

theorem wfRun_append (l1 l2 : List WriteEvent) :
    ∀ b, wfRun b (l1 ++ l2) = (wfRun b l1).bind (fun c => wfRun c l2) := by
  induction l1 with
  | nil => intro b; simp [wfRun]
  | cons ev t ih =>
    intro b
    cases b <;> cases ev <;> simp [wfRun, ih]

/-- The write-event history is well formed and its final in-flight flag is
exactly the flushPromise guard. -/
def wfInv (s : SlotState) : Prop :=
  wfRun false s.events = some s.flushPromise.isSome

theorem wfInv_init : wfInv initSlot := rfl

theorem wfInv_flushNow (s : SlotState) (h : wfInv s) : wfInv (flushNow s) := by
  unfold flushNow
  cases hp : s.flushPromise with
  | some b => unfold wfInv at h ⊢; rw [hp] at h; exact h
  | none =>
    by_cases hq : s.queue = []
    · simp only [hq, if_true]
      exact h
    · simp only [hq, if_false]
      unfold wfInv at h ⊢
      rw [hp] at h
      show wfRun false (s.events ++ [WriteEvent.wstart s.queue]) = some true
      rw [wfRun_append, h]
      rfl

theorem wfInv_flushIter (n : Nat) (s : SlotState) (h : wfInv s) :
    wfInv (flushIter n s) := by
  induction n generalizing s with
  | zero => exact h
  | succ n ih => exact ih (flushNow s) (wfInv_flushNow s h)

theorem wfInv_completeWrite (s : SlotState) (h : wfInv s) :
    wfInv (completeWrite s) := by
  unfold completeWrite
  cases hp : s.flushPromise with
  | none => exact h
  | some b =>
    apply wfInv_flushIter
    unfold wfInv at h ⊢
    rw [hp] at h
    show wfRun false (s.events ++ [WriteEvent.wdone]) = some false
    rw [wfRun_append, h]
    rfl

theorem wfInv_armTimer (cfg : TransportConfig) (s : SlotState) (h : wfInv s) :
    wfInv (armTimer cfg s) := by
  unfold armTimer
  split
  · exact h
  · exact h

theorem wfInv_fireTimer (s : SlotState) (h : wfInv s) : wfInv (fireTimer s) := by
  unfold fireTimer
  split
  · exact wfInv_flushNow _ h
  · exact h

theorem wfInv_eaf (cfg : TransportConfig) (s : SlotState) (e : LogEntry)
    (now : Nat) (h : wfInv s) : wfInv (enqueueAfterFilters cfg s e now) := by
  rcases hRL : isRateLimited cfg.rateLimit s.rateLimitCount
      s.rateLimitWindowStart now with ⟨lim, c, w⟩
  cases lim with
  | true => rw [eaf_eq_limited cfg s e now c w hRL]; exact h
  | false =>
    by_cases hcond : cfg.batchSize ≤ 1 ∨
        cfg.batchSize ≤ (pushEvict cfg.maxQueueSize s.queue e).length
    · rw [eaf_eq_flush cfg s e now c w hRL hcond]
      exact wfInv_flushNow _ h
    · rw [eaf_eq_timer cfg s e now c w hRL hcond]
      exact wfInv_armTimer cfg _ h

theorem wfInv_step (cfg : TransportConfig) (s : SlotState) (a : SlotAction)
    (h : wfInv s) : wfInv (stepAct cfg s a) := by
  cases a with
  | log e now =>
    rw [stepAct_log]
    cases hl : levelPass cfg.minLevel e with
    | false => rw [enqueueE_eq_level cfg s e now hl]; exact h
    | true =>
      cases hf : cfg.filter with
      | none =>
        rw [enqueueE_eq_none cfg s e now hl hf]
        exact wfInv_eaf cfg s e now h
      | some f =>
        cases hfe : f e with
        | error m => rw [enqueueE_eq_err cfg s e now f m hl hf hfe]; exact h
        | ok b =>
          cases b with
          | false => rw [enqueueE_eq_false cfg s e now f hl hf hfe]; exact h
          | true =>
            rw [enqueueE_eq_true cfg s e now f hl hf hfe]
            exact wfInv_eaf cfg s e now h
  | timerFire => exact wfInv_fireTimer s h
  | flushCall => exact wfInv_flushNow s h
  | writeComplete => exact wfInv_completeWrite s h

theorem wfInv_runTrace (cfg : TransportConfig) :
    ∀ (tr : List SlotAction) (s : SlotState), wfInv s →
      wfInv (runTrace cfg s tr) := by
  intro tr
  induction tr with
  | nil => intro s h; exact h
  | cons a tr ih => intro s h; exact ih (stepAct cfg s a) (wfInv_step cfg s a h)

/-! ### flushIter on a state with a write in flight only bumps the chain -/

theorem flushIter_some (n : Nat) (s : SlotState) (b : List LogEntry)
    (h : s.flushPromise = some b) :
    flushIter n s = { s with chained := s.chained + n } := by
  induction n generalizing s with
  | zero => show s = { s with chained := s.chained + 0 }; simp
  | succ n ih =>
    rw [flushIter, flushNow_some s b h,
      ih { s with chained := s.chained + 1 } h]
    show ({ s with chained := s.chained + 1 + n } : SlotState)
      = { s with chained := s.chained + (n + 1) }
    simp [Nat.add_assoc, Nat.add_comm 1 n]

theorem flushIter_fixpoint (n : Nat) (s : SlotState) (h : flushNow s = s) :
    flushIter n s = s := by
  induction n with
  | zero => rfl
  | succ n ih => rw [flushIter, h, ih]

theorem flushNow_start (s : SlotState) (hp : s.flushPromise = none)
    (hq : s.queue ≠ []) :
    flushNow s = { s with queue := [], timer := false,
                          flushPromise := some s.queue,
                          batches := s.batches ++ [s.queue],
                          events := s.events ++ [WriteEvent.wstart s.queue] } := by
  unfold flushNow
  rw [hp]
  exact if_neg hq

theorem completeWrite_drain (s : SlotState) (b : List LogEntry)
    (hp : s.flushPromise = some b) (hc : 0 < s.chained) :
    (completeWrite s).queue = [] ∧
    (completeWrite s).batches
      = (if s.queue = [] then s.batches else s.batches ++ [s.queue]) := by
  have hcw : completeWrite s = flushIter s.chained
      { s with flushPromise := none, chained := 0,
               events := s.events ++ [WriteEvent.wdone] } := by
    unfold completeWrite
    rw [hp]
  set s1 : SlotState := { s with flushPromise := none, chained := 0, events := s.events ++ [WriteEvent.wdone] } with hs1
  obtain ⟨n, hn⟩ : ∃ n, s.chained = n + 1 := ⟨s.chained - 1, by omega⟩
  rw [hcw, hn, flushIter]
  by_cases hq : s.queue = []
  · have hfix : flushNow s1 = s1 := flushNow_empty s1 hq rfl
    rw [hfix, flushIter_fixpoint n s1 hfix]
    exact ⟨hq, by rw [if_pos hq]⟩
  · have hstep := flushNow_start s1 rfl hq
    rw [hstep, flushIter_some n _ s1.queue rfl]
    exact ⟨rfl, by rw [if_neg hq]⟩

theorem flushNow_twice_batches (s : SlotState) :
    (flushNow (flushNow s)).batches = (flushNow s).batches := by
  cases hp : s.flushPromise with
  | some b =>
    rw [flushNow_some s b hp,
      flushNow_some { s with chained := s.chained + 1 } b hp]
  | none =>
    by_cases hq : s.queue = []
    · rw [flushNow_empty s hq hp, flushNow_empty s hq hp]
    · rw [flushNow_start s hp hq, flushNow_some _ s.queue rfl]

/-! ### Scenario fixtures -/

/-- Scenario entry A. -/
def eA : LogEntry := { level := "info", msg := "A" }

/-- Scenario entry B. -/
def eB : LogEntry := { level := "info", msg := "B" }

/-- Scenario entry C. -/
def eC : LogEntry := { level := "info", msg := "C" }

/-- Scenario configuration with batchSize 3, everything else default. -/
def cfgBatch3 : TransportConfig := { batchSize := 3 }

/-- Trace admitting A then B. -/
def trAB : List SlotAction := [SlotAction.log eA 0, SlotAction.log eB 0]

/-- Trace admitting A, B, C. -/
def trABC : List SlotAction :=
  [SlotAction.log eA 0, SlotAction.log eB 0, SlotAction.log eC 0]

/-! ### Claim theorems -/

/-- Claim C1: FIFO delivery per slot.  Over every trace of stimuli and
for every slot configuration (capacity eviction included), the
concatenation of the batches handed to the transport followed by the
still-queued entries is an order-preserving subsequence of the admitted
entries - those passing minLevel, the custom filter and the rate limit,
in admission order - so every delivered entry is an admitted one, dropped
entries are simply absent and nothing is ever reordered; it is in
particular a subsequence of all offered entries; and when no capacity
eviction is configured (maxQueueSize = 0, so nothing is dropped after
admission) it equals the admitted sequence exactly. -/
theorem fifo_delivery (cfg : TransportConfig) (tr : List SlotAction) :
    (flatBQ (runTrace cfg initSlot tr)).Sublist ((admittedSpec cfg tr).admitted)
    ∧ (flatBQ (runTrace cfg initSlot tr)).Sublist (inputsOf tr)
    ∧ (cfg.maxQueueSize = 0 →
        flatBQ (runTrace cfg initSlot tr) = (admittedSpec cfg tr).admitted) := by
  refine ⟨?_, ?_, ?_⟩
  · exact (runTrace_covers cfg tr initSlot {}
      ⟨List.Sublist.refl [], rfl, rfl⟩).1
  · have h := flatBQ_runTrace_sublist cfg tr initSlot
    simpa [flatBQ, initSlot] using h
  · intro hN
    exact (runTrace_matches cfg hN tr initSlot {} ⟨rfl, rfl, rfl⟩).1

/-- Witness for C1 at a concrete trace. -/
theorem fifo_delivery_witness :
    flatBQ (runTrace cfgBatch3 initSlot trABC) = [eA, eB, eC] := by
  rw [(fifo_delivery cfgBatch3 trABC).2.2 rfl]
  decide

/-- Claim C2: at most one write in flight per slot.  First, over every
trace the write start and settle events strictly alternate (the validity
automaton wfRun never rejects) and a write is open exactly when
flushPromise is held, so no two write calls on the transport ever overlap.
Second, a flush requested while a write is in flight only chains behind
it - it starts no write and leaves queue and batches untouched.  Third,
when the in-flight write completes, a chained flush re-evaluates the
possibly newly grown queue and hands it to the transport. -/
theorem one_write_in_flight (cfg : TransportConfig) (tr : List SlotAction) :
    wfRun false (runTrace cfg initSlot tr).events
      = some (runTrace cfg initSlot tr).flushPromise.isSome
    ∧ (∀ (s : SlotState) (b : List LogEntry), s.flushPromise = some b →
        flushNow s = { s with chained := s.chained + 1 })
    ∧ (∀ (s : SlotState) (b : List LogEntry), s.flushPromise = some b →
        0 < s.chained → s.queue ≠ [] →
        (completeWrite s).batches = s.batches ++ [s.queue]) := by
  refine ⟨wfInv_runTrace cfg tr initSlot wfInv_init, flushNow_some, ?_⟩
  intro s b hp hc hq
  have h := (completeWrite_drain s b hp hc).2
  rwa [if_neg hq] at h

/-- Witness for C2 at a concrete slot with a write in flight and one
chained flush. -/
theorem one_write_in_flight_witness :
    flushNow { queue := [eA], flushPromise := some [eB] }
      = { queue := [eA], flushPromise := some [eB], chained := 1 }
    ∧ (completeWrite
        { queue := [eA], flushPromise := some [eB], chained := 1 }).batches
      = [[eA]] := by
  constructor
  · exact (one_write_in_flight cfgBatch3 trABC).2.1
      { queue := [eA], flushPromise := some [eB] } [eB] rfl
  · have h := (one_write_in_flight cfgBatch3 trABC).2.2
      { queue := [eA], flushPromise := some [eB], chained := 1 } [eB] rfl
      (by decide) (by decide)
    simpa using h

/-- Claim C7: flush trigger policy.  An enqueue that admits an entry hands
the post-eviction queue to the transport at once exactly when
batchSize is at most 1 or the post-eviction queue length has reached
batchSize (given no write is in flight); otherwise it performs no write,
leaves the queue in place and arms the lazy timer per armTimer (only when
flushInterval is positive and no timer is pending).  Concretely, with
batchSize 3, admitting A then B writes nothing and admitting C produces
exactly one write of the batch A, B, C. -/
theorem flush_trigger_policy :
    (∀ (cfg : TransportConfig) (s : SlotState) (e : LogEntry) (now c w : Nat),
      isRateLimited cfg.rateLimit s.rateLimitCount s.rateLimitWindowStart now
        = (false, c, w) →
      s.flushPromise = none →
      (cfg.batchSize ≤ 1 ∨
        cfg.batchSize ≤ (pushEvict cfg.maxQueueSize s.queue e).length) →
      (enqueueAfterFilters cfg s e now).batches
          = s.batches ++ [pushEvict cfg.maxQueueSize s.queue e]
        ∧ (enqueueAfterFilters cfg s e now).queue = []
        ∧ (enqueueAfterFilters cfg s e now).flushPromise
          = some (pushEvict cfg.maxQueueSize s.queue e))
    ∧ (∀ (cfg : TransportConfig) (s : SlotState) (e : LogEntry) (now c w : Nat),
      isRateLimited cfg.rateLimit s.rateLimitCount s.rateLimitWindowStart now
        = (false, c, w) →
      ¬ (cfg.batchSize ≤ 1 ∨
        cfg.batchSize ≤ (pushEvict cfg.maxQueueSize s.queue e).length) →
      (enqueueAfterFilters cfg s e now).batches = s.batches
        ∧ (enqueueAfterFilters cfg s e now).queue
          = pushEvict cfg.maxQueueSize s.queue e
        ∧ (enqueueAfterFilters cfg s e now).flushPromise = s.flushPromise
        ∧ (enqueueAfterFilters cfg s e now).timer
          = (s.timer || decide (0 < cfg.flushInterval)))
    ∧ (runTrace cfgBatch3 initSlot trAB).batches = []
    ∧ (runTrace cfgBatch3 initSlot trABC).batches = [[eA, eB, eC]] := by
  refine ⟨?_, ?_, by decide, by decide⟩
  · intro cfg s e now c w hRL hp hcond
    rw [eaf_eq_flush cfg s e now c w hRL hcond]
    rw [flushNow_start { s with rateLimitCount := c, rateLimitWindowStart := w, queue := pushEvict cfg.maxQueueSize s.queue e } hp (pushEvict_ne_nil cfg.maxQueueSize s.queue e)]
    exact ⟨rfl, rfl, rfl⟩
  · intro cfg s e now c w hRL hcond
    rw [eaf_eq_timer cfg s e now c w hRL hcond]
    unfold armTimer
    by_cases ht : s.timer
    · rw [if_pos (Or.inl ht)]
      simp [ht]
    · by_cases hi : cfg.flushInterval ≤ 0
      · rw [if_pos (Or.inr hi)]
        have h0 : cfg.flushInterval = 0 := by omega
        simp [h0, Bool.eq_false_iff.mpr ht]
      · rw [if_neg (by simp [ht, hi])]
        have h0 : 0 < cfg.flushInterval := by omega
        simp [h0, Bool.eq_false_iff.mpr ht]

/-- Witness for C7 discharging the general-case hypotheses at a concrete
slot. -/
theorem flush_trigger_policy_witness :
    (enqueueAfterFilters { batchSize := 1 } initSlot eA 0).batches = [[eA]] := by
  have h := (flush_trigger_policy).1 { batchSize := 1 } initSlot eA 0 0 0
    (by decide) rfl (by decide)
  rw [h.1]
  rfl

/-- Claim C8: flush idempotence.  A flush on an empty queue with no write
in flight is a complete no-op on the slot state.  A second overlapping
flush adds no write: the batches handed to the transport are unchanged.
And when the in-flight write settles with a chained flush pending, the
whole queue as of that moment has been handed over (or there was nothing
left), leaving the queue empty. -/
theorem flush_idempotence :
    (∀ s : SlotState, s.queue = [] → s.flushPromise = none → flushNow s = s)
    ∧ (∀ s : SlotState,
        (flushNow (flushNow s)).batches = (flushNow s).batches)
    ∧ (∀ (s : SlotState) (b : List LogEntry), s.flushPromise = some b →
        0 < s.chained →
        (completeWrite s).queue = [] ∧
        (completeWrite s).batches
          = (if s.queue = [] then s.batches else s.batches ++ [s.queue])) :=
  ⟨flushNow_empty, flushNow_twice_batches, completeWrite_drain⟩

/-- Witness for C8: the empty flush at the initial slot state. -/
theorem flush_idempotence_witness : flushNow initSlot = initSlot :=
  (flush_idempotence).1 initSlot rfl rfl

/-! ### Claim C3: enqueue and synchronous exceptions -/

/-- A user filter callback that always throws. -/
def throwingFilter : LogEntry → Except String Bool :=
  fun _ => .error "filter exploded"

/-- A slot configuration whose custom filter always throws. -/
def cfgThrow : TransportConfig := { filter := some throwingFilter }

/-- Counterexample to claim C3 as stated: with a user supplied filter that
throws, TransportSlot.enqueue propagates the exception synchronously to
its caller (the filter call on line 59 is not guarded). -/
theorem enqueue_throws_cex :
    enqueueE cfgThrow initSlot eA 0 = .error "filter exploded" := rfl

/-- Claim C3, amended: for every entry and every slot configuration whose
custom filter does not throw on that entry, enqueue returns normally -
the rate limiter, the queue update and the flush trigger path (including
a transport whose write throws synchronously or rejects, which is
absorbed inside the retry-wrapped doWrite) never raise to the caller. -/
theorem enqueue_never_throws (cfg : TransportConfig) (s : SlotState)
    (e : LogEntry) (now : Nat)
    (h : ∀ f, cfg.filter = some f → ∃ b, f e = Except.ok b) :
    ∃ s2, enqueueE cfg s e now = .ok s2 := by
  cases hl : levelPass cfg.minLevel e with
  | false => exact ⟨s, enqueueE_eq_level cfg s e now hl⟩
  | true =>
    cases hf : cfg.filter with
    | none => exact ⟨_, enqueueE_eq_none cfg s e now hl hf⟩
    | some f =>
      obtain ⟨b, hb⟩ := h f hf
      cases b with
      | true => exact ⟨_, enqueueE_eq_true cfg s e now f hl hf hb⟩
      | false => exact ⟨s, enqueueE_eq_false cfg s e now f hl hf hb⟩

/-- Witness for the amended C3 at a filterless configuration. -/
theorem enqueue_never_throws_witness :
    ∃ s2, enqueueE {} initSlot eA 0 = .ok s2 :=
  enqueue_never_throws {} initSlot eA 0 (fun _f hf => nomatch hf)

/-! ### Claim C4: retry-wrapped write -/

theorem doWriteAux_allFail (writeOk : Nat → Bool) (mR : Nat)
    (hAll : ∀ k, writeOk k = false) :
    ∀ (fuel a : Nat), a + fuel = mR + 1 →
      doWriteAux writeOk mR a fuel = (fuel, false) := by
  intro fuel
  induction fuel with
  | zero => intro a ha; rfl
  | succ fuel ih =>
    intro a ha
    unfold doWriteAux
    rw [hAll a, if_neg (by simp)]
    by_cases hm : mR ≤ a
    · have hf : fuel = 0 := by omega
      rw [if_pos hm, hf]
    · rw [if_neg hm, ih (a + 1) (by omega)]

theorem doWriteAux_succeeds (writeOk : Nat → Bool) (mR m : Nat)
    (hfail : ∀ k, k < m → writeOk k = false) (hsucc : writeOk m = true)
    (hmR : m ≤ mR) :
    ∀ (fuel a : Nat), a ≤ m → m + 1 ≤ a + fuel →
      doWriteAux writeOk mR a fuel = (m - a + 1, true) := by
  intro fuel
  induction fuel with
  | zero => intro a h1 h2; exact absurd h2 (by omega)
  | succ fuel ih =>
    intro a h1 h2
    unfold doWriteAux
    by_cases ham : a = m
    · subst ham
      rw [hsucc, if_pos rfl]
      have h3 : a - a + 1 = 1 := by omega
      rw [h3]
    · have ham2 : a < m := by omega
      rw [hfail a ham2, if_neg (by simp), if_neg (by omega : ¬ mR ≤ a),
        ih (a + 1) (by omega) (by omega)]
      show (m - (a + 1) + 1 + 1, true) = (m - a + 1, true)
      have h3 : m - (a + 1) + 1 + 1 = m - a + 1 := by omega
      rw [h3]

/-- Claim C4: retry-wrapped write, relative to the source's attempt
counter, which counts retries performed so far and starts at 0 (doWrite
lines 123-141): after a failure the batch is retried exactly while that
counter is below maxRetries, so a transport that fails its first
m < maxRetries write calls and succeeds on call m + 1 receives exactly
m + 1 write calls and the batch is delivered, while a transport that
always fails receives exactly maxRetries + 1 calls (the initial call plus
maxRetries retries) and the batch is then discarded; in both cases
doWrite returns normally, so no delivery failure escapes the slot.  The
retryDelay wait between attempts is a pure timing effect and is not
modelled. -/
theorem retry_wrapped_write :
    (∀ (writeOk : Nat → Bool) (mR m : Nat), m < mR →
      (∀ k, k < m → writeOk k = false) → writeOk m = true →
      doWrite writeOk mR = (m + 1, true))
    ∧ (∀ (writeOk : Nat → Bool) (mR : Nat), (∀ k, writeOk k = false) →
      doWrite writeOk mR = (mR + 1, false)) := by
  constructor
  · intro writeOk mR m hm hfail hsucc
    unfold doWrite
    rw [doWriteAux_succeeds writeOk mR m hfail hsucc (by omega) (mR + 1) 0
      (by omega) (by omega)]
    have h3 : m - 0 + 1 = m + 1 := by omega
    rw [h3]
  · intro writeOk mR hAll
    exact doWriteAux_allFail writeOk mR hAll (mR + 1) 0 (by omega)

/-- Witness for C4: two failures then success with maxRetries 2. -/
theorem retry_wrapped_write_witness :
    doWrite (fun k => decide (1 ≤ k)) 2 = (2, true) :=
  (retry_wrapped_write).1 (fun k => decide (1 ≤ k)) 2 1 (by omega) (by decide)
    (by decide)

/-! ### Claim C5: rate limiter -/

/-- Counterexample to claim C5 as stated: at exactly 1000 ms elapsed - not
strictly more than one second - with the counter already at
rateLimit = 1, the source resets the window (line 146 uses a non-strict
comparison) and admits the entry, where the claim's wording (reset only
when more than 1 second has elapsed) would leave the counter full and
reject it. -/
theorem rate_limiter_cex :
    isRateLimited 1 1 0 1000 = (false, 1, 1000)
    ∧ ¬ ((1000 : Nat) - 0 > 1000) ∧ (1 : Nat) ≥ 1 := by decide

theorem isRateLimited_pos_reset (R c w now : Nat) (hR : 0 < R)
    (h : 1000 ≤ now - w) : isRateLimited R c w now = (false, 1, now) := by
  unfold isRateLimited
  rw [if_neg (by omega : ¬ R ≤ 0), if_pos h]
  show (if R ≤ 0 then ((true, 0, now) : Bool × Nat × Nat)
    else (false, 0 + 1, now)) = (false, 1, now)
  rw [if_neg (by omega : ¬ R ≤ 0)]

theorem isRateLimited_pos_stay (R c w now : Nat) (hR : 0 < R)
    (h : now - w < 1000) :
    isRateLimited R c w now
      = if R ≤ c then (true, c, w) else (false, c + 1, w) := by
  unfold isRateLimited
  rw [if_neg (by omega : ¬ R ≤ 0), if_neg (by omega : ¬ 1000 ≤ now - w)]

theorem rlRun_window (R : Nat) (hR : 0 < R) (w : Nat) :
    ∀ (ts : List Nat) (c : Nat), (∀ t ∈ ts, t - w < 1000) → c ≤ R →
      rlRun R c w ts
        = (min (R - c) ts.length, ts.length - min (R - c) ts.length) := by
  intro ts
  induction ts with
  | nil => intro c h hc; simp [rlRun]
  | cons t ts ih =>
    intro c h hc
    have ht : t - w < 1000 := h t (by simp)
    have hrest : ∀ u ∈ ts, u - w < 1000 := fun u hu => h u (by simp [hu])
    unfold rlRun
    rw [isRateLimited_pos_stay R c w t hR ht]
    by_cases hRc : R ≤ c
    · rw [if_pos hRc]
      show (match rlRun R c w ts with | (a, d) => (a, d + 1))
        = (min (R - c) (t :: ts).length,
           (t :: ts).length - min (R - c) (t :: ts).length)
      rw [ih c hrest hc]
      show (min (R - c) ts.length, ts.length - min (R - c) ts.length + 1) = _
      simp only [Prod.mk.injEq, List.length_cons]
      omega
    · rw [if_neg hRc]
      show (match rlRun R (c + 1) w ts with | (a, d) => (a + 1, d))
        = (min (R - c) (t :: ts).length,
           (t :: ts).length - min (R - c) (t :: ts).length)
      rw [ih (c + 1) hrest (by omega)]
      show (min (R - (c + 1)) ts.length + 1,
        ts.length - min (R - (c + 1)) ts.length) = _
      simp only [Prod.mk.injEq, List.length_cons]
      omega

/-- Claim C5, amended: the window resets when at least one second
(1000 ms, non-strict) has elapsed since the recorded window start - the
source uses a non-strict comparison where the claim says strictly more
than 1 second.  With that boundary fixed: rateLimit at most 0 never
limits; on reset the window start becomes now, the counter restarts and
the entry is admitted, so admission resumes once the window has elapsed;
inside a live window the entry is rejected exactly when the counter has
reached rateLimit, and otherwise admitted with the counter incremented;
and admitting R + k entries whose admission checks all fall strictly
inside the window yields exactly R admissions and k silent
rejections. -/
theorem rate_limiter_amended :
    (∀ (R c w now : Nat), R ≤ 0 → isRateLimited R c w now = (false, c, w))
    ∧ (∀ (R c w now : Nat), 0 < R → 1000 ≤ now - w →
        isRateLimited R c w now = (false, 1, now))
    ∧ (∀ (R c w now : Nat), 0 < R → now - w < 1000 →
        isRateLimited R c w now
          = if R ≤ c then (true, c, w) else (false, c + 1, w))
    ∧ (∀ (R k w : Nat) (ts : List Nat), 0 < R →
        (∀ t ∈ ts, t - w < 1000) → ts.length = R + k →
        rlRun R 0 w ts = (R, k)) := by
  refine ⟨?_, isRateLimited_pos_reset, isRateLimited_pos_stay, ?_⟩
  · intro R c w now hR
    have h0 : R = 0 := by omega
    subst h0
    rfl
  · intro R k w ts hR hwin hlen
    rw [rlRun_window R hR w ts 0 hwin (by omega), hlen]
    simp only [Prod.mk.injEq]
    omega

/-- Witness for the amended C5: rateLimit 1, two checks in one window. -/
theorem rate_limiter_amended_witness : rlRun 1 0 0 [1, 2] = (1, 1) :=
  (rate_limiter_amended).2.2.2 1 1 0 [1, 2] (by decide) (by decide) (by decide)

/-! ### Claim C6: capacity eviction -/

theorem pushEvict_fold (N : Nat) (hN : 0 < N) :
    ∀ l : List LogEntry, l.foldl (pushEvict N) [] = l.drop (l.length - N) := by
  intro l
  induction l using List.reverseRecOn with
  | nil => simp
  | append_singleton l a ih =>
    rw [List.foldl_append]
    simp only [List.foldl_cons, List.foldl_nil]
    rw [ih]
    by_cases hlen : l.length < N
    · have h0 : l.length - N = 0 := by omega
      rw [h0, List.drop_zero]
      unfold pushEvict
      rw [if_neg (by simp only [List.length_append, List.length_cons,
        List.length_nil]; omega)]
      have h1 : (l ++ [a]).length - N = 0 := by
        simp only [List.length_append, List.length_cons, List.length_nil]
        omega
      rw [h1, List.drop_zero]
    · have hle : N ≤ l.length := by omega
      have hdlen : (l.drop (l.length - N)).length = N := by
        rw [List.length_drop]
        omega
      unfold pushEvict
      rw [if_pos ⟨hN, by simp only [List.length_append, hdlen,
        List.length_cons, List.length_nil]; omega⟩]
      have hdne : l.drop (l.length - N) ≠ [] := by
        intro hcon
        rw [hcon] at hdlen
        simp at hdlen
        omega
      obtain ⟨x, xs, hx⟩ := List.exists_cons_of_ne_nil hdne
      have hxs : xs = l.drop (l.length - N + 1) := by
        have htl : (l.drop (l.length - N)).tail = l.drop (l.length - N + 1) :=
          List.tail_drop l (l.length - N)
        rw [hx] at htl
        simpa using htl
      rw [hx]
      have hidx : (l ++ [a]).length - N = l.length - N + 1 := by
        simp only [List.length_append, List.length_cons, List.length_nil]
        omega
      rw [hidx, List.drop_append_of_le_length (by omega : l.length - N + 1 ≤ l.length)]
      rw [hxs]
      simp

/-- Scenario entry with message first. -/
def eFirst : LogEntry := { level := "info", msg := "first" }

/-- Scenario entry with message second. -/
def eSecond : LogEntry := { level := "info", msg := "second" }

/-- Scenario entry with message third. -/
def eThird : LogEntry := { level := "info", msg := "third" }

/-- Scenario configuration with maxQueueSize 2 and a batch size large
enough that the three admissions in the scenario do not auto-flush. -/
def cfgMax2 : TransportConfig := { batchSize := 4, maxQueueSize := 2 }

/-- Scenario trace: admit first, second, third, then flush. -/
def trFST : List SlotAction :=
  [SlotAction.log eFirst 0, SlotAction.log eSecond 0,
   SlotAction.log eThird 0, SlotAction.flushCall]

/-- Claim C6: capacity eviction invariant.  For maxQueueSize = N > 0, the
queue left by any sequence of admissions (with no intervening flush) is
exactly the N most recently admitted entries in admission order - the
push-then-shift of enqueue lines 64-68, folded from the empty queue,
keeps the last N entries and hence at most N.  Concretely, with N = 2 and
admissions first, second, third before any flush, the delivered batch is
the pair second, third. -/
theorem capacity_eviction :
    (∀ (N : Nat), 0 < N → ∀ (l : List LogEntry),
        l.foldl (pushEvict N) [] = l.drop (l.length - N)
        ∧ (l.foldl (pushEvict N) []).length ≤ N)
    ∧ (runTrace cfgMax2 initSlot trFST).batches = [[eSecond, eThird]] := by
  constructor
  · intro N hN l
    have h := pushEvict_fold N hN l
    refine ⟨h, ?_⟩
    rw [h, List.length_drop]
    omega
  · decide

/-- Witness for C6 discharging the positivity hypothesis at N = 2. -/
theorem capacity_eviction_witness :
    [eFirst, eSecond, eThird].foldl (pushEvict 2) [] = [eSecond, eThird] := by
  have h := (capacity_eviction).1 2 (by omega) [eFirst, eSecond, eThird]
  rw [h.1]
  rfl

/-! ### Claim C9: configuration validation -/

theorem levelTest_iff (lv : Option String) :
    ((match lv with | some l => !isValidLevel l | none => false) = true)
      ↔ (∃ l, lv = some l ∧ isValidLevel l = false) := by
  cases lv <;> simp

theorem modeTest_iff (mo : Option String) :
    ((match mo with | some m => !isValidMode m | none => false) = true)
      ↔ (∃ m, mo = some m ∧ isValidMode m = false) := by
  cases mo <;> simp

theorem serviceTest_iff (sn : Option String) :
    ((match sn with | some s => s.trim == "" | none => false) = true)
      ↔ (∃ s, sn = some s ∧ s.trim = "") := by
  cases sn <;> simp

/-- Claim C9: CoreLogger.configure throws exactly when the supplied level
is present and invalid, the supplied mode is present and invalid, or the
supplied serviceName is present and trims to the empty string; and when
it throws, validateConfig has run before any assignment, so the logger
state - level, mode, serviceName and the slot collection - is returned
unchanged and no slot is constructed. -/
theorem configure_validation (st : CoreState) (c : LogConfig) :
    ((configure st c).2.isSome ↔
      ((∃ l, c.level = some l ∧ isValidLevel l = false)
       ∨ (∃ m, c.mode = some m ∧ isValidMode m = false)
       ∨ (∃ s, c.serviceName = some s ∧ s.trim = "")))
    ∧ ((configure st c).2.isSome → (configure st c).1 = st) := by
  unfold configure validateConfig
  split_ifs with h1 h2 h3
  · refine ⟨?_, fun _ => rfl⟩
    simp only [Option.isSome_some, true_iff]
    exact Or.inl ((levelTest_iff c.level).mp h1)
  · refine ⟨?_, fun _ => rfl⟩
    simp only [Option.isSome_some, true_iff]
    exact Or.inr (Or.inl ((modeTest_iff c.mode).mp h2))
  · refine ⟨?_, fun _ => rfl⟩
    simp only [Option.isSome_some, true_iff]
    exact Or.inr (Or.inr ((serviceTest_iff c.serviceName).mp h3))
  · constructor
    · simp only [Option.isSome_none, Bool.false_eq_true, false_iff]
      intro hcon
      rcases hcon with h | h | h
      · exact h1 ((levelTest_iff c.level).mpr h)
      · exact h2 ((modeTest_iff c.mode).mpr h)
      · exact h3 ((serviceTest_iff c.serviceName).mpr h)
    · intro hcon
      simp at hcon

/-- Configuration with an invalid level name. -/
def cfgBadLevel : LogConfig := { level := some "verbose" }

/-- A concrete logger state. -/
def st0 : CoreState :=
  { level := "info", mode := "pretty", serviceName := "app", slots := [] }

/-- Witness for C9: an invalid level is rejected and the state kept. -/
theorem configure_validation_witness :
    (configure st0 cfgBadLevel).2.isSome ∧ (configure st0 cfgBadLevel).1 = st0 := by
  have h := configure_validation st0 cfgBadLevel
  have hs : (configure st0 cfgBadLevel).2.isSome :=
    h.1.mpr (Or.inl ⟨"verbose", rfl, rfl⟩)
  exact ⟨hs, h.2 hs⟩

/-! ### Claim C10: transport dispatch is independent of the output mode -/

/-- Claim C10: for two CoreLogger.write runs that differ only in the
configured mode, the slot collections after the call (hence every
dispatched entry and every slot state) are identical - the mode is read
only after the dispatch, to gate console output; and in silent mode the
console flag is false while transports are still reached. -/
theorem mode_independence (lv mo1 mo2 sn : String)
    (sl : List (TransportConfig × SlotState)) (level message : String)
    (meta context : Option (List (String × String))) (scope : Option String)
    (time : String) (now : Nat) :
    ((write ⟨lv, mo1, sn, sl⟩ level message meta context scope time now).map
        (fun p => p.1.slots)
      = (write ⟨lv, mo2, sn, sl⟩ level message meta context scope time
          now).map (fun p => p.1.slots))
    ∧ (∀ st2 b, write ⟨lv, "silent", sn, sl⟩ level message meta context scope
        time now = .ok (st2, b) → b = false) := by
  constructor
  · unfold write
    dsimp only
    by_cases hlev : levelIndex level < levelIndex lv
    · rw [if_pos hlev, if_pos hlev]
      rfl
    · rw [if_neg hlev, if_neg hlev]
      have hdp : dispatchPart ⟨lv, mo1, sn, sl⟩
          (mkEntry sn level message meta context scope time) now
          = dispatchPart ⟨lv, mo2, sn, sl⟩
          (mkEntry sn level message meta context scope time) now := rfl
      rw [hdp]
      cases hd : dispatchPart ⟨lv, mo2, sn, sl⟩
          (mkEntry sn level message meta context scope time) now with
      | error e => rfl
      | ok slots2 => rfl
  · intro st2 b h
    unfold write at h
    dsimp only at h
    by_cases hlev : levelIndex level < levelIndex lv
    · rw [if_pos hlev] at h
      cases h
      rfl
    · rw [if_neg hlev] at h
      cases hd : dispatchPart ⟨lv, "silent", sn, sl⟩
          (mkEntry sn level message meta context scope time) now with
      | error e => rw [hd] at h; simp at h
      | ok slots2 =>
        rw [hd] at h
        simp only [Except.ok.injEq, Prod.mk.injEq] at h
        rw [← h.2]
        rfl

/-- Witness for C10: a concrete silent-mode run keeps the console off. -/
theorem mode_independence_witness :
    ∃ p, write ⟨"info", "silent", "app", []⟩ "info" "hello" none none none
      "t" 0 = Except.ok p ∧ p.2 = false := by
  refine ⟨(⟨"info", "silent", "app", []⟩, false), rfl, ?_⟩
  exact (mode_independence "info" "pretty" "silent" "app" [] "info" "hello"
    none none none "t" 0).2 ⟨"info", "silent", "app", []⟩ false rfl

end MeoLogger
